import Mathlib

/-!
Shallow embedding of `vt.go`, a command-line dispatcher that resolves a
symbolic host alias to connection coordinates and invokes an external tool
against it.  Pure data (host records, the host table, the user-shortcut
table) and the pure parts of the program (command-line construction, the
dispatch decision in `main`) are translated into Lean definitions; the
spawning of an external child process is modelled by an oracle
`childStatus : Cmd → Nat` giving the exit status the child would return
for a given command line (`cmd.Run()` returns a non-nil error exactly when
that status is non-zero or the spawn fails, which we fold into a non-zero
status).
-/

namespace VT

/-- The `Host` struct of `vt.go`: fields `addr`, `port`, `domain`, `phost`. -/
structure Host where
  addr   : String
  port   : String
  domain : String
  phost  : String
deriving DecidableEq, Repr

/-- A raw configuration record as decoded from the JSON config file
(the local struct `H` in `read_hosts`): fields `host, addr, port, domain, phost`. -/
structure RawH where
  host   : String
  addr   : String
  port   : String
  domain : String
  phost  : String
deriving DecidableEq, Repr

/-- The global `hosts map[string]Host` is modelled as an association list
whose keys are unique (Go map insertion replaces an existing key in place,
otherwise adds the key). -/
abbrev HostTable := List (String × Host)

/-- `join_str(s ...string)`: `strings.Join(s, "")`, i.e. concatenation. -/
def join_str (s : List String) : String := String.join s

/-- The static `extend_user` map of user shortcuts. -/
def extend_user : List (String × String) :=
  [("r", "root"), ("u", "ubuntu"), ("m", "mulisu")]

/-- Go map lookup `extend_user[k]` in comma-ok form. -/
def lookup_user (k : String) : Option String := extend_user.lookup k

/-- `default_user()`: `extend_user["r"]` (plain Go map indexing: the zero
value `""` would result if the key were absent). -/
def default_user : String := (lookup_user "r").getD ""

/-- `is_phost(h)`: true iff `h.domain == ""`. -/
def is_phost (h : Host) : Bool := h.domain == ""

/-- The `Host{h.Addr, h.Port, h.Domain, h.Phost}` conversion in `read_hosts`. -/
def toHost (r : RawH) : Host := ⟨r.addr, r.port, r.domain, r.phost⟩

/-- Go map assignment `m[k] = v`: replace the binding of `k` if present,
otherwise add it. -/
def insertHost : HostTable → String → Host → HostTable
  | [], k, v => [(k, v)]
  | (k', v') :: t, k, v =>
    if k' = k then (k, v) :: t else (k', v') :: insertHost t k v

/-- Go map lookup `hosts[n]` in comma-ok form. -/
def lookupHost : HostTable → String → Option Host
  | [], _ => none
  | (k, v) :: t, n => if k = n then some v else lookupHost t n

/-- The zero value of the `Host` struct, produced by a plain Go map lookup
on a missing key. -/
def zeroHost : Host := ⟨"", "", "", ""⟩

/-- The keys of a host table. -/
def keys (m : HostTable) : List String := m.map Prod.fst

/-- The loop of `read_hosts` after JSON decoding: build the table by
inserting each record under its `host` field, in order. -/
def read_hosts (hs : List RawH) : HostTable :=
  hs.foldl (fun m r => insertHost m r.host (toHost r)) []

/-- An external command line: executable name and argument list, as passed
to `exec.Command`. -/
structure Cmd where
  exe     : String
  cmdArgs : List String
deriving DecidableEq, Repr

/-- `ls_hosts(addr, port, user)`: the `virsh -c <uri> "list --all"` command. -/
def ls_hosts (addr port user : String) : Cmd :=
  ⟨"virsh", ["-c", join_str ["qemu+ssh://", user, "@", addr, ":", port, "/system"],
             "list --all"]⟩

/-- `go_hosts(addr, port, user)`: the interactive `virsh -c <uri>` command. -/
def go_hosts (addr port user : String) : Cmd :=
  ⟨"virsh", ["-c", join_str ["qemu+ssh://", user, "@", addr, ":", port, "/system"]]⟩

/-- `view_hosts(addr, port, domain, user)`: the `virt-viewer -c <uri> <domain>`
command. -/
def view_hosts (addr port domain user : String) : Cmd :=
  ⟨"virt-viewer", ["-c", join_str ["qemu+ssh://", user, "@", addr, ":", port, "/system"],
                   domain]⟩

/-- `ssh_hosts(addr, port, user, ssh_cmd)`: the `ssh -X -p <port> <user@addr> <cmd>`
command. -/
def ssh_hosts (addr port user ssh_cmd : String) : Cmd :=
  ⟨"ssh", ["-X", "-p", port, join_str [user, "@", addr], ssh_cmd]⟩

/-- `scp_files(addr, port, user, files)`: the `scp -P <port> <files...> <user@addr:>`
command. -/
def scp_files (addr port user : String) (files : List String) : Cmd :=
  ⟨"scp", ["-P", port] ++ files ++ [join_str [user, "@", addr, ":"]]⟩

set_option linter.unusedVariables false in
/-- `copy_id(addr, port, domain, user)`: the `ssh-copy-id -p <port> <user@addr>`
command (the `domain` parameter is unused, as in the source). -/
def copy_id (addr port domain user : String) : Cmd :=
  ⟨"ssh-copy-id", ["-p", port, join_str [user, "@", addr]]⟩

/-- Go's `sort.Strings`: sort a list of strings ascending (modelled by
insertion sort, which agrees with any correct sort on the result). -/
def sortStrings (l : List String) : List String :=
  l.insertionSort (· ≤ ·)

/-- The sorted list of physical-host aliases printed by the first half of
`show_hosts`: the keys whose record satisfies `is_phost`, sorted. -/
def phost_listing (m : HostTable) : List String :=
  sortStrings ((m.filter fun p => is_phost p.2).map Prod.fst)

/-- The sorted list of virtual-host aliases printed by the second half of
`show_hosts`: the keys whose record fails `is_phost`, sorted. -/
def vhost_listing (m : HostTable) : List String :=
  sortStrings ((m.filter fun p => !is_phost p.2).map Prod.fst)

/-- Observable output events of one run: the full host listing
(`show_hosts`), the shortcut listing (`show_users`), the usage text
(`usage`), the printed child-process error (`fmt.Println(err)`), and a
plain printed line. -/
inductive OutEvent where
  | showHosts
  | showUsers
  | usage
  | errMsg
  | line (s : String)
deriving DecidableEq, Repr

/-- The observable result of one run of `main` after the configuration has
been loaded: what was printed, which external command (if any) was spawned,
and the process exit status (`main` contains no `os.Exit`, so returning
from `main` always yields status 0). -/
structure RunResult where
  output   : List OutEvent
  invoked  : Option Cmd
  exitCode : Nat
deriving DecidableEq, Repr

/-- Run one external command and fall through to the trailing
`if err != nil { fmt.Println(err); usage(prog) }` of `main`. -/
def runChild (childStatus : Cmd → Nat) (c : Cmd) : RunResult :=
  if childStatus c ≠ 0 then ⟨[.errMsg, .usage], some c, 0⟩
  else ⟨[], some c, 0⟩

/-- The `switch op` statement of `main`, with the resolved record `h` in
scope; `args` is the full argument vector (used for arity checks and the
shortcut / remote-command / file arguments). -/
def dispatch (hosts : HostTable) (args : List String) (childStatus : Cmd → Nat)
    (op : String) (h : Host) : RunResult :=
  if op = "ls" then
        let ph := (lookupHost hosts h.phost).getD zeroHost
        runChild childStatus (ls_hosts ph.addr ph.port default_user)
      else if op = "go" then
        let ph := (lookupHost hosts h.phost).getD zeroHost
        runChild childStatus (go_hosts ph.addr ph.port default_user)
      else if op = "view" then
        if is_phost h then ⟨[.usage], none, 0⟩
        else
          let ph := (lookupHost hosts h.phost).getD zeroHost
          runChild childStatus (view_hosts ph.addr ph.port h.domain default_user)
      else if op = "ssh" then
        if args.length < 4 then ⟨[.usage], none, 0⟩
        else
          match lookup_user (args.getD 3 "") with
          | none => ⟨[.showUsers], none, 0⟩
          | some usr =>
            let c := if args.length = 5 then args.getD 4 "" else ""
            runChild childStatus (ssh_hosts h.addr h.port usr c)
      else if op = "alias" then
        ⟨[.line ("addr  : " ++ h.addr), .line ("port  : " ++ h.port),
          .line ("phost : " ++ h.phost), .line ("domain: " ++ h.domain)], none, 0⟩
      else if op = "copy" then
        if args.length < 5 then ⟨[.usage], none, 0⟩
        else
          match lookup_user (args.getD 3 "") with
          | none => ⟨[.showUsers], none, 0⟩
          | some usr => runChild childStatus (scp_files h.addr h.port usr (args.drop 4))
      else if op = "copy-id" then
        if args.length < 4 then ⟨[.usage], none, 0⟩
        else
          match lookup_user (args.getD 3 "") with
          | none => ⟨[.showUsers], none, 0⟩
          | some usr => runChild childStatus (copy_id h.addr h.port h.domain usr)
      else ⟨[.usage], none, 0⟩

/-- The dispatch logic of `main` after `read_hosts` has succeeded, over the
full argument vector `args` (`args[0]` is the program name; Go guarantees
it is present).  `childStatus` is the exit-status oracle for spawned
children. -/
def vt_main (hosts : HostTable) (args : List String) (childStatus : Cmd → Nat) :
    RunResult :=
  if args.length = 2 ∧ args.getD 1 "" = "ls" then
    ⟨[.showHosts], none, 0⟩
  else if args.length < 3 then
    ⟨[.usage], none, 0⟩
  else
    match lookupHost hosts (args.getD 2 "") with
    | none => ⟨[.showHosts], none, 0⟩
    | some h => dispatch hosts args childStatus (args.getD 1 "") h

/-! ### Lemmas about the host table -/

theorem lookupHost_insertHost (m : HostTable) (k n : String) (v : Host) :
    lookupHost (insertHost m k v) n = if k = n then some v else lookupHost m n := by
  induction m with
  | nil => simp [insertHost, lookupHost]
  | cons q t ih =>
    obtain ⟨k', v'⟩ := q
    by_cases hk : k' = k
    · simp only [insertHost, if_pos hk, lookupHost]
      by_cases hn : k = n <;> simp [hk, hn]
    · simp only [insertHost, if_neg hk, lookupHost, ih]
      by_cases hn : k' = n
      · have hkn : ¬k = n := fun he => hk (hn.trans he.symm)
        simp [hn, hkn]
      · simp [hn]

theorem mem_keys_insertHost (m : HostTable) (k n : String) (v : Host)
    (hmem : n ∈ keys (insertHost m k v)) : n ∈ keys m ∨ n = k := by
  induction m with
  | nil => simpa [insertHost, keys] using hmem
  | cons q t ih =>
    obtain ⟨k', v'⟩ := q
    by_cases hk : k' = k
    · subst hk
      simpa [insertHost, keys, Or.comm] using hmem
    · simp only [insertHost, if_neg hk, keys, List.map_cons, List.mem_cons] at hmem ⊢
      rcases hmem with h | h
      · exact Or.inl (Or.inl h)
      · rcases ih h with h' | h'
        · exact Or.inl (Or.inr h')
        · exact Or.inr h'

theorem nodup_keys_insertHost (m : HostTable) (k : String) (v : Host)
    (hnd : (keys m).Nodup) : (keys (insertHost m k v)).Nodup := by
  induction m with
  | nil => simp [insertHost, keys]
  | cons q t ih =>
    obtain ⟨k', v'⟩ := q
    simp only [keys, List.map_cons, List.nodup_cons] at hnd
    by_cases hk : k' = k
    · subst hk
      simpa [insertHost, keys, List.nodup_cons] using hnd
    · simp only [insertHost, if_neg hk, keys, List.map_cons, List.nodup_cons]
      refine ⟨fun hmem => ?_, ih hnd.2⟩
      rcases mem_keys_insertHost t k k' v hmem with h | h
      · exact hnd.1 h
      · exact hk h

/-- One step of the `read_hosts` loop, named for the fold lemmas below. -/
theorem lookupHost_foldl_insert (hs : List RawH) (m : HostTable) (n : String) :
    lookupHost (hs.foldl (fun m r => insertHost m r.host (toHost r)) m) n =
      ((hs.reverse.find? fun r => r.host == n).map toHost).or (lookupHost m n) := by
  induction hs generalizing m with
  | nil => simp
  | cons r t ih =>
    simp only [List.foldl_cons, List.reverse_cons, List.find?_append]
    rw [ih]
    cases hfind : t.reverse.find? fun r => r.host == n with
    | some r' => simp [hfind]
    | none =>
      simp only [hfind, Option.none_or, List.find?]
      rw [lookupHost_insertHost]
      by_cases hn : r.host = n
      · have hb : (r.host == n) = true := beq_iff_eq.mpr hn
        simp [hn, hb, Option.or]
      · have hb : (r.host == n) = false := beq_eq_false_iff_ne.mpr hn
        simp [hn, hb, Option.or]

theorem nodup_keys_foldl_insert (hs : List RawH) (m : HostTable)
    (hnd : (keys m).Nodup) :
    (keys (hs.foldl (fun m r => insertHost m r.host (toHost r)) m)).Nodup := by
  induction hs generalizing m with
  | nil => exact hnd
  | cons r t ih => exact ih _ (nodup_keys_insertHost m r.host (toHost r) hnd)

theorem lookupHost_eq_some_iff_mem (m : HostTable) (hnd : (keys m).Nodup)
    (k : String) (v : Host) : (k, v) ∈ m ↔ lookupHost m k = some v := by
  induction m with
  | nil => simp [lookupHost]
  | cons q t ih =>
    obtain ⟨k', v'⟩ := q
    simp only [keys, List.map_cons, List.nodup_cons] at hnd
    by_cases hk : k' = k
    · have hnot : (k, v) ∉ t := by
        intro hmem
        apply hnd.1
        rw [hk]
        exact List.mem_map.mpr ⟨(k, v), hmem, rfl⟩
      simp [lookupHost, hk, hnot, Prod.ext_iff, eq_comm]
    · have hne : (k, v) ≠ (k', v') := by
        intro he
        exact hk (congrArg Prod.fst he).symm
      simp [lookupHost, hk, hne, ih hnd.2]

/-! ### Lemmas about the listings of `show_hosts` -/

theorem mem_phost_listing_iff (m : HostTable) (hnd : (keys m).Nodup)
    (k : String) (h : Host) (hl : lookupHost m k = some h) :
    k ∈ phost_listing m ↔ h.domain = "" := by
  unfold phost_listing sortStrings
  rw [List.mem_insertionSort]
  constructor
  · intro hmem
    obtain ⟨⟨a, b⟩, hfi, hfst⟩ := List.mem_map.mp hmem
    obtain ⟨hmem', hph⟩ := List.mem_filter.mp hfi
    cases hfst
    have : lookupHost m a = some b := (lookupHost_eq_some_iff_mem m hnd a b).mp hmem'
    rw [hl] at this
    cases this
    exact beq_iff_eq.mp (by simpa [is_phost] using hph)
  · intro hdom
    refine List.mem_map.mpr ⟨(k, h), List.mem_filter.mpr ⟨?_, ?_⟩, rfl⟩
    · exact (lookupHost_eq_some_iff_mem m hnd k h).mpr hl
    · simpa [is_phost] using beq_iff_eq.mpr hdom

theorem mem_vhost_listing_iff (m : HostTable) (hnd : (keys m).Nodup)
    (k : String) (h : Host) (hl : lookupHost m k = some h) :
    k ∈ vhost_listing m ↔ h.domain ≠ "" := by
  unfold vhost_listing sortStrings
  rw [List.mem_insertionSort]
  constructor
  · intro hmem
    obtain ⟨⟨a, b⟩, hfi, hfst⟩ := List.mem_map.mp hmem
    obtain ⟨hmem', hph⟩ := List.mem_filter.mp hfi
    cases hfst
    have : lookupHost m a = some b := (lookupHost_eq_some_iff_mem m hnd a b).mp hmem'
    rw [hl] at this
    cases this
    intro hdom
    simp [is_phost, hdom] at hph
  · intro hdom
    refine List.mem_map.mpr ⟨(k, h), List.mem_filter.mpr ⟨?_, ?_⟩, rfl⟩
    · exact (lookupHost_eq_some_iff_mem m hnd k h).mpr hl
    · simp [is_phost, hdom]

theorem sorted_sortStrings (l : List String) :
    List.Sorted (· ≤ ·) (sortStrings l) :=
  List.sorted_insertionSort (· ≤ ·) l

/-! ### Reduction lemmas for `vt_main` -/

theorem runChild_invoked (childStatus : Cmd → Nat) (c : Cmd) :
    (runChild childStatus c).invoked = some c := by
  unfold runChild
  split <;> rfl

theorem vt_main_cons (hosts : HostTable) (p op a : String) (rest : List String)
    (cs : Cmd → Nat) :
    vt_main hosts (p :: op :: a :: rest) cs =
      match lookupHost hosts a with
      | none => ⟨[.showHosts], none, 0⟩
      | some h => dispatch hosts (p :: op :: a :: rest) cs op h := by
  unfold vt_main
  rw [if_neg, if_neg]
  · rfl
  · simp only [List.length_cons, not_lt]
    omega
  · rintro ⟨hlen, -⟩
    simp only [List.length_cons] at hlen
    omega

theorem runChild_exitCode (childStatus : Cmd → Nat) (c : Cmd) :
    (runChild childStatus c).exitCode = 0 := by
  unfold runChild
  split <;> rfl

theorem dispatch_exitCode (hosts : HostTable) (args : List String)
    (childStatus : Cmd → Nat) (op : String) (h : Host) :
    (dispatch hosts args childStatus op h).exitCode = 0 := by
  unfold dispatch
  repeat' split
  all_goals first | rfl | apply runChild_exitCode

/-! ### Sample configurations used as concrete test inputs -/

/-- The single-record configuration of the spec's `alias h1` scenario. -/
def sampleConfig : List RawH := [⟨"h1", "1.2.3.4", "22", "", "h1"⟩]

/-- The table built from `sampleConfig`. -/
def sampleTable : HostTable := read_hosts sampleConfig

/-- A configuration whose only record is a virtual host whose `phost`
(`"ghost"`) is not a key of the table. -/
def danglingConfig : List RawH := [⟨"v1", "5.6.7.8", "2222", "dom1", "ghost"⟩]

/-- The table built from `danglingConfig`. -/
def danglingTable : HostTable := read_hosts danglingConfig

/-- A configuration with one physical and one virtual host. -/
def mixedConfig : List RawH :=
  [⟨"h1", "1.2.3.4", "22", "", "h1"⟩, ⟨"v1", "1.2.3.4", "2221", "dom1", "h1"⟩]

/-- The table built from `mixedConfig`. -/
def mixedTable : HostTable := read_hosts mixedConfig

/-! ### The claims -/

/-- C1, counterexample: the claim "the program's process exit status equals
the child process's exit status" fails at a concrete input.  With the
single-record table and arguments `vt ls h1`, the child `virsh` command is
dispatched and (per the oracle) exits with status 1, yet the program's exit
status is 0, not 1: `main` contains no `os.Exit`, so returning from `main`
always yields status 0. -/
theorem exit_status_not_mirrored_cex :
    (vt_main sampleTable ["vt", "ls", "h1"] (fun _ => 1)).invoked =
      some (ls_hosts "1.2.3.4" "22" "root") ∧
    (fun _ => 1 : Cmd → Nat) (ls_hosts "1.2.3.4" "22" "root") = 1 ∧
    (vt_main sampleTable ["vt", "ls", "h1"] (fun _ => 1)).exitCode = 0 ∧
    ¬(vt_main sampleTable ["vt", "ls", "h1"] (fun _ => 1)).exitCode = 1 := by
  decide

/-- C1, amended: for every run (whatever the dispatched child's exit status,
and on every error path) the program's exit status is 0; a child failure is
only reported as a printed error message followed by the usage text. -/
theorem vt_main_exitCode_always_zero (hosts : HostTable) (args : List String)
    (cs : Cmd → Nat) : (vt_main hosts args cs).exitCode = 0 := by
  unfold vt_main
  repeat' split
  all_goals first | rfl | apply dispatch_exitCode

/-- C2: when an alias resolves to a record whose `phost` is not a key of the
table, the parent lookup yields the zero `Host` value and the `ls`/`go`/`view`
dispatches proceed with empty strings for the parent's address and port (for
`view`, when the alias is virtual, since a physical alias prints usage
instead). -/
theorem missing_phost_dispatch_empty (hosts : HostTable) (p a : String)
    (h : Host) (cs : Cmd → Nat) (ha : lookupHost hosts a = some h)
    (hp : lookupHost hosts h.phost = none) :
    (vt_main hosts [p, "ls", a] cs).invoked = some (ls_hosts "" "" default_user) ∧
    (vt_main hosts [p, "go", a] cs).invoked = some (go_hosts "" "" default_user) ∧
    (h.domain ≠ "" →
      (vt_main hosts [p, "view", a] cs).invoked =
        some (view_hosts "" "" h.domain default_user)) := by
  refine ⟨?_, ?_, fun hd => ?_⟩
  · rw [vt_main_cons, ha]
    simp [dispatch, hp, runChild_invoked, zeroHost]
  · rw [vt_main_cons, ha]
    simp [dispatch, hp, runChild_invoked, zeroHost]
  · rw [vt_main_cons, ha]
    simp [dispatch, hp, runChild_invoked, zeroHost, is_phost, hd]

/-- C2, witness at the dangling-parent table. -/
theorem missing_phost_dispatch_empty_witness :
    (vt_main danglingTable ["vt", "ls", "v1"] (fun _ => 0)).invoked =
      some (ls_hosts "" "" default_user) ∧
    (vt_main danglingTable ["vt", "go", "v1"] (fun _ => 0)).invoked =
      some (go_hosts "" "" default_user) ∧
    (vt_main danglingTable ["vt", "view", "v1"] (fun _ => 0)).invoked =
      some (view_hosts "" "" "dom1" default_user) := by
  have h := missing_phost_dispatch_empty danglingTable "vt" "v1"
    ⟨"5.6.7.8", "2222", "dom1", "ghost"⟩ (fun _ => 0) (by decide) (by decide)
  exact ⟨h.1, h.2.1, h.2.2 (by decide)⟩

/-- C3: building the host table from a record sequence gives each alias
exactly one entry (the key list has no duplicates), and looking up an alias
returns the record of the last configuration entry with that alias
(last duplicate wins), if any. -/
theorem read_hosts_unique_last_wins (hs : List RawH) :
    (keys (read_hosts hs)).Nodup ∧
    ∀ n : String,
      lookupHost (read_hosts hs) n =
        (hs.reverse.find? fun r => r.host == n).map toHost := by
  constructor
  · exact nodup_keys_foldl_insert hs [] (by simp [keys])
  · intro n
    unfold read_hosts
    rw [lookupHost_foldl_insert]
    cases hs.reverse.find? fun r => r.host == n <;> simp [lookupHost, Option.or]

/-- C4: for a table with unique keys (as `read_hosts` always produces), the
two listings of `show_hosts` partition the aliases — an alias is in the
physical listing iff its record's domain is empty, and in the virtual
listing iff it is not — and both listings are sorted ascending. -/
theorem show_hosts_partition_sorted (m : HostTable) (hnd : (keys m).Nodup) :
    (∀ k h, lookupHost m k = some h →
      ((k ∈ phost_listing m ↔ h.domain = "") ∧
       (k ∈ vhost_listing m ↔ h.domain ≠ ""))) ∧
    List.Sorted (· ≤ ·) (phost_listing m) ∧
    List.Sorted (· ≤ ·) (vhost_listing m) :=
  ⟨fun k h hl =>
    ⟨mem_phost_listing_iff m hnd k h hl, mem_vhost_listing_iff m hnd k h hl⟩,
   sorted_sortStrings _, sorted_sortStrings _⟩

/-- C4, witness at the mixed table. -/
theorem show_hosts_partition_sorted_witness :
    (("h1" ∈ phost_listing mixedTable ↔ (Host.mk "1.2.3.4" "22" "" "h1").domain = "") ∧
     ("h1" ∈ vhost_listing mixedTable ↔ (Host.mk "1.2.3.4" "22" "" "h1").domain ≠ "")) ∧
    List.Sorted (· ≤ ·) (phost_listing mixedTable) :=
  ⟨(show_hosts_partition_sorted mixedTable (by decide)).1 "h1"
      (Host.mk "1.2.3.4" "22" "" "h1") (by decide),
   (show_hosts_partition_sorted mixedTable (by decide)).2.1⟩

/-- C5: dispatching `view <alias>` for an alias whose record has an empty
domain (a physical host) invokes no child process and prints the usage
text. -/
theorem view_physical_prints_usage (hosts : HostTable) (p a : String)
    (h : Host) (cs : Cmd → Nat) (ha : lookupHost hosts a = some h)
    (hd : h.domain = "") :
    vt_main hosts [p, "view", a] cs = ⟨[.usage], none, 0⟩ := by
  rw [vt_main_cons, ha]
  simp [dispatch, is_phost, hd]

/-- C5, witness: `view h1` on the single-record table. -/
theorem view_physical_prints_usage_witness :
    vt_main sampleTable ["vt", "view", "h1"] (fun _ => 0) = ⟨[.usage], none, 0⟩ :=
  view_physical_prints_usage sampleTable "vt" "h1" ⟨"1.2.3.4", "22", "", "h1"⟩
    (fun _ => 0) (by decide) (by decide)

/-- C6: dispatching `ssh <alias> <shortcut> ...` with a resolvable alias and
a shortcut that is not in the user-shortcut table invokes no child process
and prints the shortcut listing. -/
theorem ssh_unknown_shortcut_lists (hosts : HostTable) (p a s : String)
    (rest : List String) (h : Host) (cs : Cmd → Nat)
    (ha : lookupHost hosts a = some h) (hu : lookup_user s = none) :
    vt_main hosts (p :: "ssh" :: a :: s :: rest) cs = ⟨[.showUsers], none, 0⟩ := by
  rw [vt_main_cons, ha]
  simp [dispatch, hu]

/-- C6, witness: `ssh h1 x` on the single-record table. -/
theorem ssh_unknown_shortcut_lists_witness :
    vt_main sampleTable ["vt", "ssh", "h1", "x"] (fun _ => 0) =
      ⟨[.showUsers], none, 0⟩ :=
  ssh_unknown_shortcut_lists sampleTable "vt" "h1" "x" [] ⟨"1.2.3.4", "22", "", "h1"⟩
    (fun _ => 0) (by decide) (by decide)

/-- C7: dispatching `ssh <alias> <shortcut> [cmd]` with a resolvable alias
and shortcut builds the `ssh` invocation from the alias's own record's
address and port (not the parent physical host's), as the resolved user,
passing the optional remote command (empty when absent). -/
theorem ssh_uses_own_record (hosts : HostTable) (p a s c : String) (h : Host)
    (usr : String) (cs : Cmd → Nat) (ha : lookupHost hosts a = some h)
    (hu : lookup_user s = some usr) :
    (vt_main hosts [p, "ssh", a, s] cs).invoked =
      some (ssh_hosts h.addr h.port usr "") ∧
    (vt_main hosts [p, "ssh", a, s, c] cs).invoked =
      some (ssh_hosts h.addr h.port usr c) := by
  constructor <;>
    · rw [vt_main_cons, ha]
      simp [dispatch, hu, runChild_invoked]

/-- C7, witness: `ssh v1 r cmd` on the mixed table uses `v1`'s own
address and port (`1.2.3.4:2221`), not the parent `h1`'s (`22`). -/
theorem ssh_uses_own_record_witness :
    (vt_main mixedTable ["vt", "ssh", "v1", "r"] (fun _ => 0)).invoked =
      some (ssh_hosts "1.2.3.4" "2221" "root" "") ∧
    (vt_main mixedTable ["vt", "ssh", "v1", "r", "uptime"] (fun _ => 0)).invoked =
      some (ssh_hosts "1.2.3.4" "2221" "root" "uptime") :=
  ssh_uses_own_record mixedTable "vt" "v1" "r" "uptime"
    ⟨"1.2.3.4", "2221", "dom1", "h1"⟩ "root" (fun _ => 0) (by decide) (by decide)

/-- C8: on the configuration with the single record
`host h1, addr 1.2.3.4, port 22, empty domain, phost h1`, running
`alias h1` prints exactly the four lines `addr  : 1.2.3.4`, `port  : 22`,
`phost : h1`, `domain: ` in that order, spawns nothing, and exits 0. -/
theorem alias_h1_scenario :
    vt_main sampleTable ["vt", "alias", "h1"] (fun _ => 0) =
      ⟨[.line "addr  : 1.2.3.4", .line "port  : 22", .line "phost : h1",
        .line "domain: "], none, 0⟩ := by
  decide

/-- C9: the alias lookup precedes command recognition.  For any argument
vector of length at least three, if the alias (third element) is not a key
of the table, the run prints the full host listing and dispatches nothing —
even for an unrecognized sub-command; the usage text for an unrecognized
sub-command is printed (only) when the alias resolves. -/
theorem alias_lookup_precedes_command (hosts : HostTable) (p op a : String)
    (rest : List String) (cs : Cmd → Nat) :
    (lookupHost hosts a = none →
      vt_main hosts (p :: op :: a :: rest) cs = ⟨[.showHosts], none, 0⟩) ∧
    (∀ h, lookupHost hosts a = some h →
      op ∉ (["ls", "go", "view", "ssh", "alias", "copy", "copy-id"] : List String) →
      vt_main hosts (p :: op :: a :: rest) cs = ⟨[.usage], none, 0⟩) := by
  constructor
  · intro hn
    rw [vt_main_cons, hn]
  · intro h ha hop
    rw [vt_main_cons, ha]
    simp only [List.mem_cons, List.not_mem_nil, or_false, not_or] at hop
    obtain ⟨h1, h2, h3, h4, h5, h6, h7⟩ := hop
    simp [dispatch, h1, h2, h3, h4, h5, h6, h7]

/-- C9, witness: with an unrecognized sub-command `bogus`, an unknown alias
prints the host listing while a known alias prints usage. -/
theorem alias_lookup_precedes_command_witness :
    vt_main sampleTable ["vt", "bogus", "zz"] (fun _ => 0) =
      ⟨[.showHosts], none, 0⟩ ∧
    vt_main sampleTable ["vt", "bogus", "h1"] (fun _ => 0) =
      ⟨[.usage], none, 0⟩ :=
  ⟨(alias_lookup_precedes_command sampleTable "vt" "bogus" "zz" [] (fun _ => 0)).1
      (by decide),
   (alias_lookup_precedes_command sampleTable "vt" "bogus" "h1" [] (fun _ => 0)).2
      ⟨"1.2.3.4", "22", "", "h1"⟩ (by decide) (by decide)⟩

/-- C10: an `ssh` dispatch with six or more CLI arguments (two or more
trailing arguments after the shortcut) passes the empty string as the
remote command — the extras are silently ignored — while a sole trailing
argument (exactly five CLI arguments) is passed as the remote command. -/
theorem ssh_extra_args_ignored (hosts : HostTable) (p a s c1 c2 : String)
    (rest : List String) (h : Host) (usr : String) (cs : Cmd → Nat)
    (ha : lookupHost hosts a = some h) (hu : lookup_user s = some usr) :
    (vt_main hosts (p :: "ssh" :: a :: s :: c1 :: c2 :: rest) cs).invoked =
      some (ssh_hosts h.addr h.port usr "") ∧
    (vt_main hosts [p, "ssh", a, s, c1] cs).invoked =
      some (ssh_hosts h.addr h.port usr c1) := by
  constructor
  · rw [vt_main_cons, ha]
    simp [dispatch, hu, runChild_invoked]
    split
    next hlt => exact absurd hlt (by omega)
    next => exact runChild_invoked cs _
  · rw [vt_main_cons, ha]
    simp [dispatch, hu, runChild_invoked]

/-- C10, witness: `ssh h1 r c1 c2` ignores both trailing arguments while
`ssh h1 r c1` passes `c1`. -/
theorem ssh_extra_args_ignored_witness :
    (vt_main sampleTable ["vt", "ssh", "h1", "r", "c1", "c2"] (fun _ => 0)).invoked =
      some (ssh_hosts "1.2.3.4" "22" "root" "") ∧
    (vt_main sampleTable ["vt", "ssh", "h1", "r", "c1"] (fun _ => 0)).invoked =
      some (ssh_hosts "1.2.3.4" "22" "root" "c1") :=
  ssh_extra_args_ignored sampleTable "vt" "h1" "r" "c1" "c2" []
    ⟨"1.2.3.4", "22", "", "h1"⟩ "root" (fun _ => 0) (by decide) (by decide)

end VT
